import Mathlib

/-!
Verification of the message-ingestion and routing core of the plural_chat
repository: proxy-tag resolution, command dispatch, the session registry,
broadcast fan-out, mention triggering of automated (AI) personas, and the
message handlers' validation/persistence ordering.

The Python sources are embedded shallowly: pure functions become Lean
functions, database/session state becomes explicit record passing, values
parsed from JSON become an inductive `Json` type, and code paths that can
raise an uncaught Python exception are modelled with `Except`/sum results.
-/

set_option autoImplicit false

namespace PluralChat

/-! ## String primitives

Python `str` is a sequence of code points, which matches Lean's `String`
as a list of `Char`.  The embedded code uses its own primitives over
`String.data` (rather than the byte-position-based core functions) so that
every definition evaluates by kernel reduction on concrete inputs. -/

/-- Python `s[n:]` (code-point based, like `String.drop`). -/
def strDrop (s : String) (n : Nat) : String := ⟨s.data.drop n⟩

/-- Python `s[:-n]` for `n ≥ 1` (and `s` itself for `n = 0`). -/
def strDropRight (s : String) (n : Nat) : String := ⟨s.data.take (s.data.length - n)⟩

/-- Python `len(s)`. -/
def strLen (s : String) : Nat := s.data.length

/-- Python `s.startswith(p)`. -/
def strStartsWith (s p : String) : Bool := p.data.isPrefixOf s.data

/-- Python `s.endswith(p)`. -/
def strEndsWith (s p : String) : Bool := p.data.isSuffixOf s.data

/-- Python `s.strip()`: remove leading and trailing whitespace. -/
def strStrip (s : String) : String :=
  ⟨((s.data.dropWhile Char.isWhitespace).reverse.dropWhile Char.isWhitespace).reverse⟩

/-- Python `s.lower()` (ASCII case folding, the range the chat data uses). -/
def strLower (s : String) : String := ⟨s.data.map Char.toLower⟩

/-- Python `pat in hay` (substring containment). -/
def strContains (hay pat : String) : Bool :=
  (List.range (hay.data.length + 1)).any fun i => pat.data.isPrefixOf (hay.data.drop i)

/-! ## JSON values, as produced by `json.loads` -/

/-- A parsed JSON value.  `num` covers both Python ints and the truthiness
cases the code depends on; the exact numeric value is irrelevant to the
embedded code apart from `0` being falsy. -/
inductive Json where
  | null
  | bool (b : Bool)
  | num (n : Int)
  | str (s : String)
  | arr (elems : List Json)
  | obj (fields : List (String × Json))

/-- Python truthiness of a JSON-decoded value. -/
def Json.truthy : Json → Bool
  | .null => false
  | .bool b => b
  | .num n => n != 0
  | .str s => s != ""
  | .arr l => !l.isEmpty
  | .obj l => !l.isEmpty

/-- `dict.get` on a decoded JSON object.  `json.loads` keeps the last
occurrence of a duplicated key, so the lookup prefers later fields. -/
def dictGet : List (String × Json) → String → Option Json
  | [], _ => none
  | (k, v) :: rest, key =>
      match dictGet rest key with
      | some w => some w
      | none => if k = key then some v else none

/-- `dict.get(key, default)` on a decoded JSON object. -/
def dictGetD (fields : List (String × Json)) (key : String) (dflt : Json) : Json :=
  (dictGet fields key).getD dflt

/-! ## Members and the stored `proxy_tags` column -/

/-- The `proxy_tags` column as seen by `parse_proxy_tags`
(`src/web/backend/app/routers/messages.py`): either a falsy value (`None` or
`""`, skipped by `if not member.proxy_tags`), a string rejected by
`json.loads` (caught by the `except` clause), or the decoded JSON value. -/
inductive ProxyField where
  | empty
  | malformed
  | parsed (j : Json)

/-- The slice of the ORM `Member` row that `parse_proxy_tags` reads. -/
structure Member where
  id : Nat
  proxy_tags : ProxyField

/-- Result of one iteration of the inner tag-set loop of `parse_proxy_tags`:
fall through, return a member with stripped content, or raise an uncaught
`TypeError` (`str.startswith`/`str.endswith` applied to a non-string). -/
inductive EntryResult where
  | skip
  | found (stripped : String)
  | raised
  deriving DecidableEq

/-- The body of the tag-set loop, after `tag_set.get("prefix", "")` and
`tag_set.get("suffix", "")` have been read.  Mirrors the branch structure of
`parse_proxy_tags` lines 47-76, including Python's left-to-right
short-circuit of `content.startswith(prefix) and content.endswith(suffix)`
and the `if matches and stripped_content` non-empty check. -/
def evalTagPair (content : String) (pre suf : Json) : EntryResult :=
  if !pre.truthy && !suf.truthy then .skip
  else if pre.truthy && suf.truthy then
    match pre with
    | .str p =>
        if strStartsWith content p then
          match suf with
          | .str s =>
              if strEndsWith content s then
                let stripped := strStrip (strDropRight (strDrop content (strLen p)) (strLen s))
                if stripped != "" then .found stripped else .skip
              else .skip
          | _ => .raised
        else .skip
    | _ => .raised
  else if pre.truthy then
    match pre with
    | .str p =>
        if strStartsWith content p then
          let stripped := strStrip (strDrop content (strLen p))
          if stripped != "" then .found stripped else .skip
        else .skip
    | _ => .raised
  else
    match suf with
    | .str s =>
        if strEndsWith content s then
          let stripped := strStrip (strDropRight content (strLen s))
          if stripped != "" then .found stripped else .skip
        else .skip
    | _ => .raised

/-- One iteration of the tag-set loop: non-dict entries are skipped by
`if not isinstance(tag_set, dict)`. -/
def evalEntry (content : String) (tagSet : Json) : EntryResult :=
  match tagSet with
  | .obj fields =>
      evalTagPair content (dictGetD fields "prefix" (.str ""))
        (dictGetD fields "suffix" (.str ""))
  | _ => .skip

/-- The tag-set loop over one member's decoded list. -/
def scanEntries (content : String) : List Json → EntryResult
  | [] => .skip
  | t :: ts =>
      match evalEntry content t with
      | .found s => .found s
      | .raised => .raised
      | .skip => scanEntries content ts

/-- One iteration of the outer member loop.  `.skip` covers the falsy
column, a `json.loads` failure (caught) and a decoded non-list value
(`if not isinstance(proxy_tags_list, list)`). -/
def scanMember (content : String) (m : Member) : EntryResult :=
  match m.proxy_tags with
  | .empty => .skip
  | .malformed => .skip
  | .parsed (.arr entries) => scanEntries content entries
  | .parsed _ => .skip

/-- `parse_proxy_tags(content, members)` from
`src/web/backend/app/routers/messages.py` lines 23-83.  `.error ()` is an
uncaught `TypeError` escaping the function. -/
def parse_proxy_tags (content : String) : List Member → Except Unit (Option Nat × String)
  | [] => .ok (none, content)
  | m :: rest =>
      match scanMember content m with
      | .found s => .ok (some m.id, s)
      | .raised => .error ()
      | .skip => parse_proxy_tags content rest

/-! ## Spec-side resolution (§4.1 of the spec), over clean tag pairs -/

/-- Match rule of spec §4.1 for a single `{prefix, suffix}` entry: prefix
and suffix both present, prefix only, or suffix only; the stripped content
must be non-empty after trimming, else the entry does not match. -/
def ruleMatch (content pre suf : String) : Option String :=
  if pre != "" && suf != "" then
    if strStartsWith content pre && strEndsWith content suf then
      let mid := strStrip (strDropRight (strDrop content (strLen pre)) (strLen suf))
      if mid != "" then some mid else none
    else none
  else if pre != "" then
    if strStartsWith content pre then
      let rest := strStrip (strDrop content (strLen pre))
      if rest != "" then some rest else none
    else none
  else if suf != "" then
    if strEndsWith content suf then
      let rest := strStrip (strDropRight content (strLen suf))
      if rest != "" then some rest else none
    else none
  else none

/-- First matching entry of one persona's ordered tag list (spec §4.1). -/
def firstTagMatch (content : String) : List (String × String) → Option String
  | [] => none
  | (p, s) :: ts =>
      match ruleMatch content p s with
      | some m => some m
      | none => firstTagMatch content ts

/-- Resolution as the spec words it: iterate personas in stored order, first
persona/entry combination that matches wins; otherwise `(none, content)`. -/
def resolveSpec (content : String) : List (Nat × List (String × String)) → Option Nat × String
  | [] => (none, content)
  | (i, tags) :: rest =>
      match firstTagMatch content tags with
      | some m => (some i, m)
      | none => resolveSpec content rest

/-- The documented storage format of one tag entry:
`{"prefix": ..., "suffix": ...}` with string values. -/
def encodeTag (t : String × String) : Json :=
  .obj [("prefix", .str t.1), ("suffix", .str t.2)]

/-- A member whose `proxy_tags` column holds the documented JSON array of
`{"prefix", "suffix"}` string pairs. -/
def encodeMember (p : Nat × List (String × String)) : Member :=
  ⟨p.1, .parsed (.arr (p.2.map encodeTag))⟩

/-! ## Bridging lemmas: the embedded code on clean tag entries -/

theorem evalTagPair_str (content p s : String) :
    evalTagPair content (.str p) (.str s) =
      match ruleMatch content p s with
      | some m => .found m
      | none => .skip := by
  by_cases hp : p = "" <;> by_cases hs : s = "" <;>
    by_cases h1 : strStartsWith content p <;> by_cases h2 : strEndsWith content s <;>
      simp [evalTagPair, ruleMatch, Json.truthy, hp, hs, h1, h2] <;> split <;> simp_all

theorem scanEntries_encode (content : String) (ts : List (String × String)) :
    scanEntries content (ts.map encodeTag) =
      match firstTagMatch content ts with
      | some m => .found m
      | none => .skip := by
  induction ts with
  | nil => rfl
  | cons t ts ih =>
      obtain ⟨p, s⟩ := t
      have he : evalEntry content (encodeTag (p, s)) = evalTagPair content (.str p) (.str s) := rfl
      simp only [List.map_cons, scanEntries, firstTagMatch, he, evalTagPair_str]
      cases ruleMatch content p s <;> simp [ih]

/-- Claim C1: proxy-tag resolution is first-match-wins: for every input text
and ordered member list (stored in the documented `{"prefix", "suffix"}`
format), `parse_proxy_tags` returns the member id and trimmed stripped
content of the first member/tag-entry combination, in stored iteration
order, whose prefix/suffix rule matches with non-empty stripped content; an
entry whose stripped content is empty after trim falls through; if no
combination matches it returns no member and the original text unchanged.
Stated as agreement with `resolveSpec`, the spec §4.1 algorithm. -/
theorem C1_proxy_resolution_first_match (content : String)
    (ms : List (Nat × List (String × String))) :
    parse_proxy_tags content (ms.map encodeMember) = .ok (resolveSpec content ms) := by
  induction ms with
  | nil => rfl
  | cons m rest ih =>
      obtain ⟨i, tags⟩ := m
      have hs : scanMember content (encodeMember (i, tags))
          = scanEntries content (tags.map encodeTag) := rfl
      simp only [List.map_cons, parse_proxy_tags, resolveSpec, hs, scanEntries_encode]
      cases firstTagMatch content tags <;> simp [ih, encodeMember]

/-! ## Total-resolution analysis over arbitrary stored configurations -/

/-- A tag-set entry the code silently skips regardless of content: a
non-dict entry, or a dict whose prefix and suffix values are both falsy. -/
def entrySkipShape : Json → Bool
  | .obj fields =>
      !(dictGetD fields "prefix" (.str "")).truthy
        && !(dictGetD fields "suffix" (.str "")).truthy
  | _ => true

/-- A member the outer loop skips whole: falsy column, `json.loads`
failure, or a decoded value that is not a list. -/
def memberSkipShape (m : Member) : Bool :=
  match m.proxy_tags with
  | .empty => true
  | .malformed => true
  | .parsed (.arr _) => false
  | .parsed _ => true

/-- A prefix/suffix value that can never reach `str.startswith` or
`str.endswith` as a non-string argument: a string, or any falsy value. -/
def valOk : Json → Bool
  | .str _ => true
  | v => !v.truthy

/-- A tag-set entry that cannot raise `TypeError`. -/
def entryOk : Json → Bool
  | .obj fields =>
      valOk (dictGetD fields "prefix" (.str ""))
        && valOk (dictGetD fields "suffix" (.str ""))
  | _ => true

/-- A member whose decoded tag list cannot raise `TypeError`. -/
def memberOk (m : Member) : Bool :=
  match m.proxy_tags with
  | .parsed (.arr es) => es.all entryOk
  | _ => true

theorem valOk_truthy {v : Json} (hv : valOk v = true) (ht : v.truthy = true) :
    ∃ s, v = .str s := by
  cases v <;> simp_all [valOk, Json.truthy]

theorem evalTagPair_not_raised (content : String) {pre suf : Json}
    (hp : valOk pre = true) (hs : valOk suf = true) :
    evalTagPair content pre suf ≠ .raised := by
  by_cases hpt : pre.truthy = true <;> by_cases hst : suf.truthy = true
  · obtain ⟨p, rfl⟩ := valOk_truthy hp hpt
    obtain ⟨s, rfl⟩ := valOk_truthy hs hst
    rw [evalTagPair_str]
    cases ruleMatch content p s <;> simp
  · obtain ⟨p, rfl⟩ := valOk_truthy hp hpt
    rw [Bool.not_eq_true] at hst
    unfold evalTagPair
    simp only [hpt, hst, Bool.not_true, Bool.not_false, Bool.and_false, Bool.false_and,
      Bool.and_true, Bool.true_and]
    split_ifs <;> simp
  · obtain ⟨s, rfl⟩ := valOk_truthy hs hst
    rw [Bool.not_eq_true] at hpt
    unfold evalTagPair
    simp only [hpt, hst, Bool.not_true, Bool.not_false, Bool.and_false, Bool.false_and,
      Bool.and_true, Bool.true_and]
    split_ifs <;> simp
  · rw [Bool.not_eq_true] at hpt hst
    unfold evalTagPair
    simp [hpt, hst]

theorem evalEntry_not_raised (content : String) {t : Json} (h : entryOk t = true) :
    evalEntry content t ≠ .raised := by
  cases t <;> simp_all [evalEntry, entryOk]
  exact evalTagPair_not_raised content h.1 h.2

theorem scanEntries_not_raised (content : String) {ts : List Json}
    (h : ts.all entryOk = true) : scanEntries content ts ≠ .raised := by
  induction ts with
  | nil => simp [scanEntries]
  | cons t ts ih =>
      simp only [List.all_cons, Bool.and_eq_true] at h
      simp only [scanEntries]
      cases he : evalEntry content t with
      | found s => simp
      | raised => exact absurd he (evalEntry_not_raised content h.1)
      | skip => exact ih h.2

theorem scanMember_not_raised (content : String) {m : Member}
    (h : memberOk m = true) : scanMember content m ≠ .raised := by
  unfold scanMember
  match hm : m.proxy_tags with
  | .empty | .malformed => simp
  | .parsed (.arr es) =>
      unfold memberOk at h
      rw [hm] at h
      exact scanEntries_not_raised content h
  | .parsed .null | .parsed (.bool _) | .parsed (.num _) | .parsed (.str _)
  | .parsed (.obj _) => simp

theorem entrySkipShape_skip (content : String) {t : Json}
    (h : entrySkipShape t = true) : evalEntry content t = .skip := by
  cases t <;> simp_all [evalEntry, entrySkipShape, evalTagPair]

/-- Claim C10 (amended): a member whose `proxy_tags` is a falsy column,
unparseable JSON, or a decoded non-list is silently skipped; within a
member, a non-dict entry or an entry whose prefix and suffix are both
falsy is skipped and scanning continues with the remaining entries; and
resolution never raises — returning an `ok` pair — provided every dict
entry's prefix/suffix values are strings or falsy.  (Without that proviso
the function is not total: see the counterexample.) -/
theorem C10_resolution_totality :
    (∀ (content : String) (m : Member) (rest : List Member),
        memberSkipShape m = true →
        parse_proxy_tags content (m :: rest) = parse_proxy_tags content rest)
    ∧ (∀ (content : String) (i : Nat) (t : Json) (ts : List Json) (rest : List Member),
        entrySkipShape t = true →
        parse_proxy_tags content (⟨i, .parsed (.arr (t :: ts))⟩ :: rest)
          = parse_proxy_tags content (⟨i, .parsed (.arr ts)⟩ :: rest))
    ∧ (∀ (content : String) (ms : List Member),
        (∀ m ∈ ms, memberOk m = true) →
        (parse_proxy_tags content ms).isOk = true) := by
  refine ⟨?_, ?_, ?_⟩
  · intro content m rest h
    have : scanMember content m = .skip := by
      unfold scanMember
      unfold memberSkipShape at h
      match hm : m.proxy_tags with
      | .empty | .malformed => rfl
      | .parsed (.arr es) => rw [hm] at h; simp at h
      | .parsed .null | .parsed (.bool _) | .parsed (.num _) | .parsed (.str _)
      | .parsed (.obj _) => rfl
    simp [parse_proxy_tags, this]
  · intro content i t ts rest h
    simp [parse_proxy_tags, scanMember, scanEntries, entrySkipShape_skip content h]
  · intro content ms h
    induction ms with
    | nil => simp [parse_proxy_tags, Except.isOk, Except.toBool]
    | cons m rest ih =>
        simp only [parse_proxy_tags]
        cases hm : scanMember content m with
        | found s => simp [Except.isOk, Except.toBool]
        | raised =>
            exact absurd hm (scanMember_not_raised content (h m (by simp)))
        | skip => exact ih (fun x hx => h x (by simp [hx]))

/-- Claim C10, counterexample to totality as stated: a stored tag list
`[{"prefix": 5, "suffix": ""}]` is valid JSON, a list of dicts, and not
both-empty, yet `content.startswith(5)` raises an uncaught `TypeError`
instead of skipping — resolution does not return a pair. -/
theorem C10_counterexample :
    parse_proxy_tags "hello"
      [⟨7, .parsed (.arr [.obj [("prefix", .num 5), ("suffix", .str "")]])⟩]
      = .error () := rfl

/-- Witness for `C10_resolution_totality` at a concrete configuration. -/
theorem C10_resolution_totality_witness :
    (parse_proxy_tags "[hi]" [⟨1, .parsed (.arr [.obj [("prefix", .str "["),
        ("suffix", .str "]")]])⟩]).isOk = true :=
  C10_resolution_totality.2.2 "[hi]"
    [⟨1, .parsed (.arr [.obj [("prefix", .str "["), ("suffix", .str "]")]])⟩]
    (by intro m hm; simp at hm; subst hm; decide)

/-! ## ConnectionManager (`src/web/backend/app/websocket.py` lines 21-44)

The Python `Dict[str, Set[str]]` is embedded as an insertion-ordered
association list from user id to a duplicate-free list of session ids. -/

/-- Dictionary lookup (`key in dict` / `dict[key]`) on an insertion-ordered
association list, the embedding of a Python `dict`. -/
def alLookup {β : Type} : List (String × β) → String → Option β
  | [], _ => none
  | (k, v) :: rest, key => if k = key then some v else alLookup rest key

/-- `dict[key] = value`, keeping the insertion position of an existing key. -/
def alSet {β : Type} : List (String × β) → String → β → List (String × β)
  | [], key, v => [(key, v)]
  | (k0, v0) :: rest, key, v =>
      if k0 = key then (key, v) :: rest else (k0, v0) :: alSet rest key v

/-- `del dict[key]`. -/
def alDel {β : Type} : List (String × β) → String → List (String × β)
  | [], _ => []
  | (k0, v0) :: rest, key => if k0 = key then rest else (k0, v0) :: alDel rest key

/-- Python `set.add` on a duplicate-free list. -/
def setAdd (l : List String) (x : String) : List String :=
  if x ∈ l then l else x :: l

/-- The `ConnectionManager` state: `user_id -> set of session IDs`. -/
structure ConnectionManager where
  active_connections : List (String × List String)

/-- `ConnectionManager.connect`: create the entry if absent, then add the
session id. -/
def ConnectionManager.connect (m : ConnectionManager) (sid uid : String) :
    ConnectionManager :=
  ⟨alSet m.active_connections uid
    (setAdd ((alLookup m.active_connections uid).getD []) sid)⟩

/-- `ConnectionManager.disconnect`: discard the session id if the user has
an entry; delete the entry when its set becomes empty. -/
def ConnectionManager.disconnect (m : ConnectionManager) (sid uid : String) :
    ConnectionManager :=
  match alLookup m.active_connections uid with
  | none => m
  | some s =>
      if (s.erase sid).isEmpty then ⟨alDel m.active_connections uid⟩
      else ⟨alSet m.active_connections uid (s.erase sid)⟩

/-- `ConnectionManager.get_user_sessions`. -/
def ConnectionManager.get_user_sessions (m : ConnectionManager) (uid : String) :
    List String :=
  (alLookup m.active_connections uid).getD []

/-- A connect (attach) or disconnect (detach) call. -/
inductive CMOp where
  | connect (sid uid : String)
  | disconnect (sid uid : String)

/-- Run a sequence of registry operations from a starting state. -/
def runOps (init : ConnectionManager) : List CMOp → ConnectionManager
  | [] => init
  | .connect sid uid :: ops => runOps (init.connect sid uid) ops
  | .disconnect sid uid :: ops => runOps (init.disconnect sid uid) ops

/-- The registry at process start. -/
def initCM : ConnectionManager := ⟨[]⟩

/-- No user is mapped to an empty session set. -/
def CMInv (m : ConnectionManager) : Prop :=
  ∀ p ∈ m.active_connections, p.2 ≠ []

theorem mem_alSet {β : Type} {l : List (String × β)} {key : String}
    {v : β} {p : String × β} (h : p ∈ alSet l key v) :
    p = (key, v) ∨ p ∈ l := by
  induction l with
  | nil => simp [alSet] at h; simp [h]
  | cons e rest ih =>
      obtain ⟨k0, v0⟩ := e
      unfold alSet at h
      split at h <;> simp only [List.mem_cons] at h ⊢
      · rcases h with h | h
        · exact .inl h
        · exact .inr (.inr h)
      · rcases h with h | h
        · exact .inr (.inl h)
        · rcases ih h with h' | h'
          · exact .inl h'
          · exact .inr (.inr h')

theorem mem_alDel {β : Type} {l : List (String × β)} {key : String}
    {p : String × β} (h : p ∈ alDel l key) : p ∈ l := by
  induction l with
  | nil => simp [alDel] at h
  | cons e rest ih =>
      obtain ⟨k0, v0⟩ := e
      unfold alDel at h
      split at h
      · exact .tail _ h
      · simp only [List.mem_cons] at h ⊢
        rcases h with h | h
        · exact .inl h
        · exact .inr (ih h)

theorem setAdd_ne_nil (l : List String) (x : String) : setAdd l x ≠ [] := by
  unfold setAdd
  split
  · intro h
    subst h
    simp_all
  · simp

theorem connect_inv {m : ConnectionManager} (hm : CMInv m) (sid uid : String) :
    CMInv (m.connect sid uid) := by
  intro p hp
  rcases mem_alSet hp with h | h
  · subst h
    exact setAdd_ne_nil _ _
  · exact hm p h

theorem disconnect_inv {m : ConnectionManager} (hm : CMInv m) (sid uid : String) :
    CMInv (m.disconnect sid uid) := by
  intro p hp
  unfold ConnectionManager.disconnect at hp
  split at hp
  · exact hm p hp
  · split at hp
    · exact hm p (mem_alDel hp)
    · rcases mem_alSet hp with h | h
      · subst h
        simp_all [List.isEmpty_iff]
      · exact hm p h

theorem runOps_inv {m : ConnectionManager} (hm : CMInv m) (ops : List CMOp) :
    CMInv (runOps m ops) := by
  induction ops generalizing m with
  | nil => exact hm
  | cons op ops ih =>
      cases op with
      | connect sid uid => exact ih (connect_inv hm sid uid)
      | disconnect sid uid => exact ih (disconnect_inv hm sid uid)

theorem alLookup_mem {β : Type} {l : List (String × β)} {key : String}
    {v : β} (h : alLookup l key = some v) : (key, v) ∈ l := by
  induction l with
  | nil => simp [alLookup] at h
  | cons e rest ih =>
      obtain ⟨k0, v0⟩ := e
      unfold alLookup at h
      split at h
      · simp_all
      · exact .tail _ (ih h)

/-- Claim C6: for every sequence of connect (attach) and disconnect
(detach) operations run from the initial state, the account-to-handles map
never contains an account mapped to an empty handle set; and after
`attach(A,h1)`, `attach(A,h2)`, `detach(A,h1)`, `detach(A,h2)` account `A`
has no entry in the registry. -/
theorem C6_registry_no_empty_entry :
    (∀ (ops : List CMOp) (uid : String) (s : List String),
        alLookup (runOps initCM ops).active_connections uid = some s → s ≠ [])
    ∧ alLookup (runOps initCM
        [.connect "h1" "A", .connect "h2" "A",
         .disconnect "h1" "A", .disconnect "h2" "A"]).active_connections "A" = none := by
  constructor
  · intro ops uid s h
    exact runOps_inv (by intro p hp; simp [initCM] at hp) ops (uid, s) (alLookup_mem h)
  · decide

/-- Witness for `C6_registry_no_empty_entry` at a concrete run. -/
theorem C6_registry_no_empty_entry_witness : (["h1"] : List String) ≠ [] :=
  C6_registry_no_empty_entry.1 [.connect "h1" "A"] "A" ["h1"] (by decide)

/-! ## Broadcast fan-out (`websocket.py` lines 186-189 and 274-290)

`broadcast_to_user` and the in-handler fan-out loops are all the bare loop
`for session_id in sessions: await sio_app.emit(event, data, room=session_id)`
with no per-handle exception handling.  `emitOk` gives each handle's
delivery outcome; the embedding returns the handles actually delivered to,
paired with the handle whose `emit` raised, if any. -/

def broadcast_to_user (emitOk : String → Bool) : List String → List String × Option String
  | [] => ([], none)
  | sid :: rest =>
      if emitOk sid then
        ((broadcast_to_user emitOk rest).1.cons sid, (broadcast_to_user emitOk rest).2)
      else ([], some sid)

/-- Claim C5 (amended): each of the N sessions attached to the account
receives exactly one copy of the event provided every emit succeeds; but
delivery is not isolated per handle — the first failing handle aborts the
loop, the handles after it receive nothing, and the exception propagates to
the caller of `broadcast_to_user` rather than being logged per handle. -/
theorem C5_broadcast_fanout :
    (∀ (emitOk : String → Bool) (sessions : List String),
        (∀ s ∈ sessions, emitOk s = true) →
        broadcast_to_user emitOk sessions = (sessions, none))
    ∧ (∀ (emitOk : String → Bool) (before after : List String) (h : String),
        (∀ s ∈ before, emitOk s = true) → emitOk h = false →
        broadcast_to_user emitOk (before ++ h :: after) = (before, some h)) := by
  constructor
  · intro emitOk sessions hall
    induction sessions with
    | nil => rfl
    | cons sid rest ih =>
        have hsid : emitOk sid = true := hall sid (by simp)
        simp [broadcast_to_user, hsid, ih (fun s hs => hall s (by simp [hs]))]
  · intro emitOk before after h hall hfail
    induction before with
    | nil => simp [broadcast_to_user, hfail]
    | cons sid rest ih =>
        have hsid : emitOk sid = true := hall sid (by simp)
        simp [broadcast_to_user, hsid, ih (fun s hs => hall s (by simp [hs]))]

/-- Claim C5, counterexample: with two attached sessions and the first
emit raising, the second session receives no copy of the event and the
exception escapes the fan-out loop. -/
theorem C5_counterexample :
    (broadcast_to_user (fun s => s != "h1") ["h1", "h2"]).1.count "h2" = 0
    ∧ (broadcast_to_user (fun s => s != "h1") ["h1", "h2"]).2 = some "h1" := by
  decide

/-- Witness for `C5_broadcast_fanout` at a concrete session list. -/
theorem C5_broadcast_fanout_witness :
    broadcast_to_user (fun _ => true) ["a", "b"] = (["a", "b"], none) :=
  C5_broadcast_fanout.1 (fun _ => true) ["a", "b"] (by simp)

/-! ## Command registry (`src/web/backend/app/commands.py`)

The handlers themselves call out to the database and network; each is
abstracted by an id, and `behavior` supplies a handler's outcome on given
arguments — `.ok` its returned string, `.error` the message of a raised
exception. -/

/-- A registered `Command`: name, handler (abstracted by id), description,
usage, aliases. -/
structure Command where
  name : String
  handler : Nat
  description : String
  usage : String
  aliases : List String
  deriving DecidableEq

/-- `CommandRegistry.register`: store the definition under its name and
then under every alias — all keys map to the identical definition. -/
def register (reg : List (String × Command)) (c : Command) : List (String × Command) :=
  c.aliases.foldl (fun r a => alSet r a c) (alSet reg c.name c)

/-- The registry as built by the decorator calls at import time. -/
def buildRegistry (cs : List Command) : List (String × Command) :=
  cs.foldl register []

/-- Python `message[1:].split()`: split on whitespace runs, dropping
empty pieces. -/
def pySplit (s : String) : List String :=
  ((s.data.splitOnP Char.isWhitespace).filter (· ≠ [])).map fun w => ⟨w⟩

/-- `CommandRegistry.execute` (`commands.py` lines 59-89). -/
def CommandRegistry.execute (reg : List (String × Command))
    (behavior : Nat → List String → Except String String) (message : String) :
    Option String :=
  if !(strStartsWith message "/") then none
  else
    match pySplit (strDrop message 1) with
    | [] => none
    | w :: args =>
        match alLookup reg (strLower w) with
        | none =>
            some ("❌ Unknown command: `/" ++ strLower w
              ++ "`. Type `/help` for available commands.")
        | some cmd =>
            match behavior cmd.handler args with
            | .ok r => some r
            | .error e => some ("❌ Error executing command: " ++ e)

/-- Command syntax (spec §4.2): a leading `/` followed by at least one
whitespace-separated token. -/
def IsCommandSyntax (message : String) : Prop :=
  strStartsWith message "/" = true ∧ pySplit (strDrop message 1) ≠ []

/-- Claim C7: command execution never propagates a handler exception: on
command-syntax input `execute` returns a string — the standardized
unknown-command string when the case-insensitive lookup misses, the
handler's string on success, and the standardized error string when the
handler raises — and it returns `None` exactly when the text is not
command syntax, signaling fall-through to persona resolution. -/
theorem C7_execute_never_raises :
    ∀ (reg : List (String × Command))
      (behavior : Nat → List String → Except String String) (message : String),
    (CommandRegistry.execute reg behavior message = none ↔ ¬ IsCommandSyntax message)
    ∧ (∀ w args, strStartsWith message "/" = true →
        pySplit (strDrop message 1) = w :: args →
        (alLookup reg (strLower w) = none →
          CommandRegistry.execute reg behavior message
            = some ("❌ Unknown command: `/" ++ strLower w
                ++ "`. Type `/help` for available commands."))
        ∧ (∀ cmd, alLookup reg (strLower w) = some cmd →
            CommandRegistry.execute reg behavior message
              = some (match behavior cmd.handler args with
                      | .ok r => r
                      | .error e => "❌ Error executing command: " ++ e))) := by
  intro reg behavior message
  constructor
  · unfold CommandRegistry.execute IsCommandSyntax
    by_cases hs : strStartsWith message "/" = true
    · simp only [hs, Bool.not_true, Bool.false_eq_true, if_false, not_true_eq_false]
      cases hp : pySplit (strDrop message 1) with
      | nil => simp
      | cons w args =>
          cases hl : alLookup reg (strLower w) with
          | none => simp [hl]
          | some cmd => cases hb : behavior cmd.handler args <;> simp [hl, hb]
    · simp only [Bool.not_eq_true] at hs
      simp [hs]
  · intro w args hs hp
    unfold CommandRegistry.execute
    simp only [hs, Bool.not_true, Bool.false_eq_true, if_false, hp]
    constructor
    · intro hl
      simp [hl]
    · intro cmd hl
      simp only [hl]
      cases behavior cmd.handler args <;> rfl

/-- Witness for `C7_execute_never_raises`: a raising handler is converted
to the standardized error string. -/
theorem C7_execute_never_raises_witness :
    CommandRegistry.execute [("ping", ⟨"ping", 0, "d", "u", []⟩)]
        (fun _ _ => .error "boom") "/ping"
      = some "❌ Error executing command: boom" :=
  ((C7_execute_never_raises [("ping", ⟨"ping", 0, "d", "u", []⟩)]
      (fun _ _ => .error "boom") "/ping").2 "ping" [] (by decide) (by decide)).2
    ⟨"ping", 0, "d", "u", []⟩ (by decide)

/-! ## Registry structure under distinct keys -/

/-- All dictionary keys a list of commands occupies. -/
def allKeys (cs : List Command) : List String :=
  (cs.map (fun c => c.name :: c.aliases)).flatten

/-- The registry entries one `register` call appends for a fresh command. -/
def entriesOf (c : Command) : List (String × Command) :=
  (c.name, c) :: c.aliases.map (fun a => (a, c))

theorem alLookup_eq_none {β : Type} {l : List (String × β)} {key : String}
    (h : key ∉ l.map Prod.fst) : alLookup l key = none := by
  induction l with
  | nil => rfl
  | cons e rest ih =>
      obtain ⟨k0, v0⟩ := e
      simp only [List.map_cons, List.mem_cons] at h
      push_neg at h
      unfold alLookup
      rw [if_neg fun hh => h.1 hh.symm, ih h.2]

theorem alSet_fresh {β : Type} {l : List (String × β)} {key : String} (v : β)
    (h : key ∉ l.map Prod.fst) : alSet l key v = l ++ [(key, v)] := by
  induction l with
  | nil => rfl
  | cons e rest ih =>
      obtain ⟨k0, v0⟩ := e
      simp only [List.map_cons, List.mem_cons] at h
      push_neg at h
      unfold alSet
      rw [if_neg fun hh => h.1 hh.symm, ih h.2]
      simp

theorem map_fst_entriesOf (c : Command) :
    (entriesOf c).map Prod.fst = c.name :: c.aliases := by
  simp only [entriesOf, List.map_cons, List.map_map, Function.comp_def]
  simp

theorem foldl_alSet_append {β : Type} (v : β) :
    ∀ (keys : List String) (l : List (String × β)), keys.Nodup →
    (∀ k ∈ keys, k ∉ l.map Prod.fst) →
    keys.foldl (fun r a => alSet r a v) l = l ++ keys.map (fun a => (a, v)) := by
  intro keys
  induction keys with
  | nil => intro l _ _; simp
  | cons a keys ih =>
      intro l hnd hfresh
      simp only [List.foldl_cons]
      rw [alSet_fresh v (hfresh a (by simp))]
      rw [ih (l ++ [(a, v)]) hnd.of_cons ?fresh]
      · simp
      case fresh =>
        intro k hk
        have h1 : k ∉ l.map Prod.fst := hfresh k (List.mem_cons_of_mem _ hk)
        have h2 : k ≠ a := fun h => (List.nodup_cons.mp hnd).1 (h ▸ hk)
        simp [h1, h2]

theorem register_append {reg : List (String × Command)} {c : Command}
    (hnd : (c.name :: c.aliases).Nodup)
    (hfresh : ∀ k ∈ c.name :: c.aliases, k ∉ reg.map Prod.fst) :
    register reg c = reg ++ entriesOf c := by
  unfold register
  rw [alSet_fresh c (hfresh c.name (by simp))]
  rw [foldl_alSet_append c c.aliases _ hnd.of_cons ?fresh]
  · simp [entriesOf]
  case fresh =>
    intro k hk
    have h1 : k ∉ reg.map Prod.fst := hfresh k (by simp [hk])
    have h2 : k ≠ c.name := fun h => (List.nodup_cons.mp hnd).1 (h ▸ hk)
    simp [h1, h2]

theorem foldl_register_append :
    ∀ (cs : List Command) (reg : List (String × Command)),
    (reg.map Prod.fst ++ allKeys cs).Nodup →
    cs.foldl register reg = reg ++ (cs.map entriesOf).flatten := by
  intro cs
  induction cs with
  | nil => intro reg _; simp
  | cons c tl ih =>
      intro reg hnd
      have hkeys : allKeys (c :: tl) = (c.name :: c.aliases) ++ allKeys tl := by
        simp [allKeys]
      rw [hkeys] at hnd
      have hsub : ((c.name :: c.aliases)).Sublist
          (reg.map Prod.fst ++ ((c.name :: c.aliases) ++ allKeys tl)) :=
        (List.sublist_append_left _ _).trans (List.sublist_append_right _ _)
      have hnd1 : (c.name :: c.aliases).Nodup := hnd.sublist hsub
      have hdisj := (List.nodup_append.mp hnd).2.2
      have hfresh : ∀ k ∈ c.name :: c.aliases, k ∉ reg.map Prod.fst := by
        intro k hk hkA
        exact hdisj hkA (List.mem_append_left _ hk)
      simp only [List.foldl_cons]
      rw [register_append hnd1 hfresh]
      rw [ih (reg ++ entriesOf c) (by
        simpa [List.map_append, map_fst_entriesOf, List.append_assoc] using hnd)]
      simp

theorem alLookup_append {β : Type} (l₁ l₂ : List (String × β)) (key : String) :
    alLookup (l₁ ++ l₂) key =
      match alLookup l₁ key with
      | some v => some v
      | none => alLookup l₂ key := by
  induction l₁ with
  | nil => rfl
  | cons e rest ih =>
      obtain ⟨k0, v0⟩ := e
      by_cases h : k0 = key <;> simp [alLookup, h, ih]

theorem alLookup_const {β : Type} (v : β) :
    ∀ (ks : List String) (a : String), a ∈ ks →
    alLookup (ks.map (fun k => (k, v))) a = some v := by
  intro ks
  induction ks with
  | nil => intro a ha; simp at ha
  | cons k ks ih =>
      intro a ha
      by_cases h : k = a
      · simp [alLookup, h]
      · have : a ∈ ks := by
          rcases List.mem_cons.mp ha with h' | h'
          · exact absurd h'.symm h
          · exact h'
        simp [alLookup, h, ih a this]

theorem alLookup_entriesOf {c : Command} {key : String}
    (hk : key = c.name ∨ key ∈ c.aliases) :
    alLookup (entriesOf c) key = some c := by
  unfold entriesOf
  by_cases h : c.name = key
  · simp [alLookup, h]
  · rcases hk with hk | hk
    · exact absurd hk.symm h
    · simp [alLookup, h, alLookup_const c c.aliases key hk]

/-! ## Help text generation (`get_help_text`, `commands.py` lines 91-137) -/

/-- The category the `if`/`elif` chain of `get_help_text` assigns to a
command name (in output order, 0-4; 4 is the Utility catch-all). -/
def catName (n : String) : Nat :=
  if n ∈ ["member", "info", "list", "rename"] then 0
  else if n ∈ ["switch", "front", "switchhistory"] then 1
  else if n ∈ ["proxy", "autoproxy"] then 2
  else if n ∈ ["settings", "theme", "export"] then 3
  else 4

/-- The alias-dedup pass of `get_help_text`: keep each name's first
occurrence among the dict values (the `seen` set of names). -/
def dedupByName : List Command → List String → List Command
  | [], _ => []
  | c :: cs, seen =>
      if c.name ∈ seen then dedupByName cs seen
      else c :: dedupByName cs (c.name :: seen)

/-- `unique_commands` of `get_help_text`, then `sort(key=lambda c: c.name)`. -/
def sortedUnique (reg : List (String × Command)) : List Command :=
  (dedupByName (reg.map Prod.snd) []).mergeSort fun a b => decide (a.name ≤ b.name)

/-- The sequence of commands `get_help_text` formats: the five category
buckets in declared order; each formatted entry shows the command's usage,
description and its aliases inline. -/
def help_commands (reg : List (String × Command)) : List Command :=
  ((sortedUnique reg).filter fun c => catName c.name == 0)
    ++ ((sortedUnique reg).filter fun c => catName c.name == 1)
    ++ ((sortedUnique reg).filter fun c => catName c.name == 2)
    ++ ((sortedUnique reg).filter fun c => catName c.name == 3)
    ++ ((sortedUnique reg).filter fun c => catName c.name == 4)

theorem catName_cases (n : String) :
    catName n = 0 ∨ catName n = 1 ∨ catName n = 2 ∨ catName n = 3 ∨ catName n = 4 := by
  unfold catName
  split_ifs <;> simp

theorem countP_cat_split (p : Command → Bool) (l : List Command) :
    (l.filter fun c => catName c.name == 0).countP p
      + (l.filter fun c => catName c.name == 1).countP p
      + (l.filter fun c => catName c.name == 2).countP p
      + (l.filter fun c => catName c.name == 3).countP p
      + (l.filter fun c => catName c.name == 4).countP p
      = l.countP p := by
  induction l with
  | nil => rfl
  | cons c l ih =>
      rcases catName_cases c.name with h | h | h | h | h <;>
        cases hp : p c <;>
          (simp [List.filter_cons, h, List.countP_cons, hp]; omega)

theorem countP_help_commands (p : Command → Bool) (reg : List (String × Command)) :
    (help_commands reg).countP p = (sortedUnique reg).countP p := by
  unfold help_commands
  rw [List.countP_append, List.countP_append, List.countP_append, List.countP_append]
  have := countP_cat_split p (sortedUnique reg)
  omega

theorem mem_help_commands {reg : List (String × Command)} {d : Command}
    (h : d ∈ help_commands reg) : d ∈ sortedUnique reg := by
  unfold help_commands at h
  simp only [List.mem_append, List.mem_filter] at h
  rcases h with ((((h | h) | h) | h) | h) <;> exact h.1

theorem dedupByName_skip {blk rest : List Command} {seen : List String}
    (h : ∀ d ∈ blk, d.name ∈ seen) :
    dedupByName (blk ++ rest) seen = dedupByName rest seen := by
  induction blk with
  | nil => rfl
  | cons d blk ih =>
      simp only [List.cons_append, dedupByName, if_pos (h d (by simp))]
      exact ih fun x hx => h x (by simp [hx])

theorem dedupByName_values :
    ∀ (cs : List Command) (seen : List String),
    (cs.map Command.name).Nodup →
    (∀ c ∈ cs, c.name ∉ seen) →
    dedupByName ((cs.map fun c => c :: c.aliases.map fun _ => c).flatten) seen = cs := by
  intro cs
  induction cs with
  | nil => intro seen _ _; rfl
  | cons c tl ih =>
      intro seen hnd hseen
      simp only [List.map_cons, List.flatten_cons, List.cons_append]
      rw [dedupByName, if_neg (hseen c (by simp))]
      rw [dedupByName_skip (by intro d hd; simp at hd; simp [hd])]
      rw [ih (c.name :: seen) (by simpa using hnd.of_cons) ?fresh]
      case fresh =>
        intro d hd
        have h1 : d.name ∉ seen := hseen d (by simp [hd])
        have h2 : d.name ≠ c.name := by
          have hpair : (∀ x ∈ tl, ¬x.name = c.name) ∧ (List.map Command.name tl).Nodup := by
            simpa using hnd
          exact hpair.1 d hd
        simp [h1, h2]

theorem map_snd_entriesOf (c : Command) :
    (entriesOf c).map Prod.snd = c :: c.aliases.map fun _ => c := by
  simp [entriesOf, List.map_map, Function.comp_def]

theorem names_sublist_allKeys (cs : List Command) :
    (cs.map Command.name).Sublist (allKeys cs) := by
  induction cs with
  | nil => simp [allKeys]
  | cons c tl ih =>
      simp only [List.map_cons, allKeys, List.flatten_cons, List.cons_append]
      exact (ih.trans (List.sublist_append_right _ _)).cons₂ _

theorem countP_name_one {cs : List Command} (hnd : (cs.map Command.name).Nodup) :
    ∀ {c : Command}, c ∈ cs → cs.countP (fun d => d.name == c.name) = 1 := by
  induction cs with
  | nil => intro c hc; simp at hc
  | cons d tl ih =>
      intro c hc
      have hpair : (∀ x ∈ tl, ¬x.name = d.name) ∧ (List.map Command.name tl).Nodup := by
        simpa using hnd
      rcases List.mem_cons.mp hc with h | h
      · have hz : tl.countP (fun e => e.name == c.name) = 0 := by
          rw [List.countP_eq_zero]
          intro e he hbe
          exact hpair.1 e he (by rw [eq_of_beq hbe, h])
        have hb : (d.name == c.name) = true := by rw [h]; exact beq_self_eq_true _
        simp [List.countP_cons, hz, hb]
      · have hne : (d.name == c.name) = false := by
          rw [beq_eq_false_iff_ne]
          intro he
          exact hpair.1 c h he.symm
        have h1 := ih hpair.2 h
        simp [List.countP_cons, hne, h1]

/-- Claim C8: a command registered under a canonical name with aliases
resolves to the identical definition whether looked up by the canonical
name or by any of its aliases, and the generated help output lists every
distinct command exactly once, aliases merged into the canonical entry
rather than listed as separate commands. -/
theorem C8_alias_lookup_and_help :
    ∀ (cs : List Command), (allKeys cs).Nodup →
    (∀ c ∈ cs, alLookup (buildRegistry cs) c.name = some c
        ∧ ∀ a ∈ c.aliases, alLookup (buildRegistry cs) a = some c)
    ∧ (∀ c ∈ cs,
        (help_commands (buildRegistry cs)).countP (fun d => d.name == c.name) = 1)
    ∧ (∀ d ∈ help_commands (buildRegistry cs), d ∈ cs) := by
  intro cs hkeys
  have hbuild : buildRegistry cs = (cs.map entriesOf).flatten := by
    unfold buildRegistry
    rw [foldl_register_append cs [] (by simpa using hkeys)]
    simp
  have hnames : (cs.map Command.name).Nodup := hkeys.sublist (names_sublist_allKeys cs)
  have hvalues : (buildRegistry cs).map Prod.snd
      = (cs.map fun c => c :: c.aliases.map fun _ => c).flatten := by
    rw [hbuild, List.map_flatten, List.map_map]
    have hcomp : (List.map Prod.snd ∘ entriesOf)
        = fun c : Command => c :: c.aliases.map fun _ => c :=
      funext fun c => map_snd_entriesOf c
    rw [hcomp]
  have hdedup : dedupByName ((buildRegistry cs).map Prod.snd) [] = cs := by
    rw [hvalues]
    exact dedupByName_values cs [] hnames (by simp)
  have hperm := List.mergeSort_perm (dedupByName ((buildRegistry cs).map Prod.snd) [])
    fun a b => decide (a.name ≤ b.name)
  refine ⟨?_, ?_, ?_⟩
  · intro c hc
    obtain ⟨l₁, l₂, rfl⟩ := List.append_of_mem hc
    have hshape : buildRegistry (l₁ ++ c :: l₂)
        = (l₁.map entriesOf).flatten ++ (entriesOf c ++ (l₂.map entriesOf).flatten) := by
      rw [hbuild]
      simp
    have hKdecomp : allKeys (l₁ ++ c :: l₂)
        = allKeys l₁ ++ ((c.name :: c.aliases) ++ allKeys l₂) := by
      simp [allKeys]
    have hfst : ((l₁.map entriesOf).flatten).map Prod.fst = allKeys l₁ := by
      rw [List.map_flatten, List.map_map]
      have hcomp : (List.map Prod.fst ∘ entriesOf)
          = fun c : Command => c.name :: c.aliases :=
        funext fun c => map_fst_entriesOf c
      rw [hcomp]
      rfl
    have hdisj := (List.nodup_append.mp (hKdecomp ▸ hkeys)).2.2
    have hlook : ∀ key, key = c.name ∨ key ∈ c.aliases →
        alLookup (buildRegistry (l₁ ++ c :: l₂)) key = some c := by
      intro key hkmem
      rw [hshape, alLookup_append]
      have hnone : alLookup ((l₁.map entriesOf).flatten) key = none := by
        apply alLookup_eq_none
        rw [hfst]
        intro hin
        apply hdisj hin
        apply List.mem_append_left
        rcases hkmem with h | h
        · simp [h]
        · simp [h]
      rw [hnone]
      show alLookup (entriesOf c ++ (l₂.map entriesOf).flatten) key = some c
      rw [alLookup_append, alLookup_entriesOf hkmem]
    exact ⟨hlook c.name (.inl rfl), fun a ha => hlook a (.inr ha)⟩
  · intro c hc
    rw [countP_help_commands]
    unfold sortedUnique
    rw [hperm.countP_eq, hdedup]
    exact countP_name_one hnames hc
  · intro d hd
    have hmem := mem_help_commands hd
    unfold sortedUnique at hmem
    rw [hperm.mem_iff, hdedup] at hmem
    exact hmem

/-- Witness for `C8_alias_lookup_and_help`: looking up the alias `m`
returns the `member` definition. -/
theorem C8_alias_lookup_and_help_witness :
    alLookup (buildRegistry [⟨"member", 0, "d", "u", ["m"]⟩, ⟨"ping", 1, "d", "u", []⟩]) "m"
      = some ⟨"member", 0, "d", "u", ["m"]⟩ :=
  ((C8_alias_lookup_and_help [⟨"member", 0, "d", "u", ["m"]⟩, ⟨"ping", 1, "d", "u", []⟩]
      (by decide)).1 ⟨"member", 0, "d", "u", ["m"]⟩ (by decide)).2 "m" (by decide)

/-! ## AI characters and mention triggering
(`websocket.py` lines 191-247 and `ai_characters.py` lines 16-53) -/

/-- The slice of a `Member` row the AI path reads. -/
structure AIMember where
  id : Nat
  name : String
  is_ai : Bool
  ai_enabled : Bool
  ai_provider : String
  deriving DecidableEq

/-- The provider table of `AICharacterManager.__init__`. -/
def knownProviders : List String := ["gemini", "openai", "claude", "ollama"]

/-- `AICharacterManager.get_response`: `None` for non-AI/disabled members
and unknown providers; otherwise the provider call's text, or — when the
provider raises — the synthesized in-character fallback string. -/
def get_response (m : AIMember) (providerResult : Except Unit String) : Option String :=
  if !m.is_ai || !m.ai_enabled then none
  else if !(knownProviders.contains m.ai_provider) then none
  else
    match providerResult with
    | .ok r => some r
    | .error _ => some ("*" ++ m.name ++ " seems confused and doesn't respond*")

/-- One AI character's mention test (`websocket.py` lines 209-211):
`f"@{ai_char.name}" in content` (case-sensitive), or the lowercased
content beginning with the lowercased name followed by `":"` or `" "`. -/
def mentionMatch (content : String) (m : AIMember) : Bool :=
  strContains content ("@" ++ m.name)
    || strStartsWith (strLower content) (strLower m.name ++ ":")
    || strStartsWith (strLower content) (strLower m.name ++ " ")

/-- The mention scan loop (`websocket.py` lines 207-213): the first AI
character, in query order, whose test matches; `break` stops the loop. -/
def mentionScan (content : String) : List AIMember → Option AIMember
  | [] => none
  | m :: rest => if mentionMatch content m then some m else mentionScan content rest

/-- The addressing marker as spec §4.4 words it, every form matched
case-insensitively (for comparison with the code's `mentionMatch`). -/
def addressedSpec (content : String) (m : AIMember) : Bool :=
  strContains (strLower content) (strLower ("@" ++ m.name))
    || strStartsWith (strLower content) (strLower m.name ++ ":")
    || strStartsWith (strLower content) (strLower m.name ++ " ")

/-- Claim C3 (amended): the scan addresses an automated persona iff the
content contains an explicit marker for its display name — the at-mention
token matched case-sensitively, or the content beginning with the name
followed by a colon or space matched case-insensitively — the first
matching automated persona in declared order wins, and at most one is
returned per message. -/
theorem C3_mention_scan :
    ∀ (content : String) (ais : List AIMember) (m : AIMember),
    mentionScan content ais = some m ↔
      (mentionMatch content m = true
        ∧ ∃ l₁ l₂, ais = l₁ ++ m :: l₂ ∧ ∀ b ∈ l₁, mentionMatch content b = false) := by
  intro content ais
  induction ais with
  | nil =>
      intro m
      simp only [mentionScan]
      constructor
      · intro h; cases h
      · rintro ⟨-, l₁, l₂, hdec, -⟩
        exact absurd hdec (by simp)
  | cons a rest ih =>
      intro m
      by_cases hm : mentionMatch content a = true
      · simp only [mentionScan, if_pos hm]
        constructor
        · intro h
          obtain rfl : a = m := Option.some.inj h
          exact ⟨hm, [], rest, rfl, by simp⟩
        · rintro ⟨hmm, l₁, l₂, hdec, hall⟩
          cases l₁ with
          | nil =>
              simp only [List.nil_append, List.cons.injEq] at hdec
              rw [hdec.1]
          | cons b l₁ =>
              simp only [List.cons_append, List.cons.injEq] at hdec
              exact absurd (hdec.1 ▸ hm) (by simp [hall b (by simp)])
      · simp only [mentionScan, if_neg hm]
        rw [ih m]
        constructor
        · rintro ⟨hmm, l₁, l₂, rfl, hall⟩
          refine ⟨hmm, a :: l₁, l₂, rfl, ?_⟩
          intro b hb
          rcases List.mem_cons.mp hb with rfl | hb
          · exact Bool.not_eq_true _ ▸ (by simpa using hm)
          · exact hall b hb
        · rintro ⟨hmm, l₁, l₂, hdec, hall⟩
          cases l₁ with
          | nil =>
              simp only [List.nil_append, List.cons.injEq] at hdec
              exact absurd (hdec.1 ▸ hmm) hm
          | cons b l₁ =>
              simp only [List.cons_append, List.cons.injEq] at hdec
              exact ⟨hmm, l₁, l₂, hdec.2, fun x hx => hall x (by simp [hx])⟩

/-- Claim C3, counterexample to case-insensitive matching as stated: the
content `"@bot hi"` contains the at-mention token for `Bot` up to case
(the spec marker matches), yet the code's scan addresses nobody, because
the `f"@{name}" in content` test is case-sensitive. -/
theorem C3_counterexample :
    mentionScan "@bot hi" [⟨5, "Bot", true, true, "openai"⟩] = none
    ∧ addressedSpec "@bot hi" ⟨5, "Bot", true, true, "openai"⟩ = true := by
  decide

/-- Witness for `C3_mention_scan` at a concrete content and persona list. -/
theorem C3_mention_scan_witness :
    mentionScan "Bot: hi" [⟨5, "Bot", true, true, "openai"⟩]
      = some ⟨5, "Bot", true, true, "openai"⟩ :=
  (C3_mention_scan "Bot: hi" [⟨5, "Bot", true, true, "openai"⟩]
      ⟨5, "Bot", true, true, "openai"⟩).mpr
    ⟨by decide, [], [], rfl, by simp⟩

/-- One `message` event emitted for an AI response (`websocket.py` lines
230-245): the payload is built with `id: 0` and `timestamp: None` — it is
not a database row — and is emitted to one session. -/
structure AIBroadcast where
  msg_id : Nat
  member_id : Nat
  content : String
  sid : String
  deriving DecidableEq

/-- The AI phase of the websocket `send_message` handler (lines 195-247):
scan the user's enabled AI characters for a mention, ask the provider for
the first mentioned one, and — when the response is truthy — emit it to
the user's sessions.  The first component is the list of
`(member_id, content)` rows added to the `messages` table during this
phase; the handler performs no `db.add` here, so it is always empty.  The
scan runs once, on the inbound content only — never on the response. -/
def aiPhase (content : String) (sessions : List String) (ais : List AIMember)
    (providerResult : AIMember → Except Unit String) :
    List (Nat × String) × List AIBroadcast :=
  match mentionScan content ais with
  | none => ([], [])
  | some m =>
      match get_response m (providerResult m) with
      | none => ([], [])
      | some resp =>
          if resp != "" then ([], sessions.map fun sid => ⟨0, m.id, resp, sid⟩)
          else ([], [])

theorem star_append_ne_empty (s : String) : (("*" ++ s) != "") = true := by
  rw [bne_iff_ne]
  intro h
  have hd := congrArg String.data h
  simp [String.data_append] at hd

/-- Claim C2 (amended): when a mentioned automated persona's provider call
raises (including a timeout), the handler synthesizes the in-character
fallback string instead of failing the inbound-message handling, and emits
it to every session attributed to that persona — but the response is only
broadcast, never persisted as a `Message` row, and no second
mention-trigger pass runs against the reply text (the output is fully
determined by the single scan of the inbound content). -/
theorem C2_ai_fallback :
    ∀ (content : String) (sessions : List String) (ais : List AIMember)
      (providerResult : AIMember → Except Unit String) (m : AIMember),
    mentionScan content ais = some m →
    m.is_ai = true → m.ai_enabled = true →
    knownProviders.contains m.ai_provider = true →
    providerResult m = .error () →
    aiPhase content sessions ais providerResult
      = ([], sessions.map fun sid =>
          ⟨0, m.id, "*" ++ m.name ++ " seems confused and doesn't respond*", sid⟩) := by
  intro content sessions ais pr m hscan hai hen hprov herr
  simp only [aiPhase, hscan, get_response, herr, hai, hen, hprov, Bool.not_true,
    Bool.or_self, Bool.not_false, Bool.false_eq_true, if_false]
  rw [if_pos (by rw [String.append_assoc]; exact star_append_ne_empty _)]

/-- Claim C2, counterexample to persistence as stated: a mentioned AI
persona whose provider raises produces the fallback broadcast, while the
set of rows added to the `messages` table in this phase is empty — the
reply is not persisted as a normal `Message`. -/
theorem C2_counterexample :
    aiPhase "@Bot hi" ["s1"] [⟨5, "Bot", true, true, "openai"⟩] (fun _ => .error ())
      = ([], [⟨0, 5, "*Bot seems confused and doesn't respond*", "s1"⟩]) := by
  decide

/-- Witness for `C2_ai_fallback` at a concrete mention and provider error. -/
theorem C2_ai_fallback_witness :
    aiPhase "Ann: hello" ["a", "b"] [⟨9, "Ann", true, true, "claude"⟩]
        (fun _ => .error ())
      = ([], [⟨0, 9, "*Ann seems confused and doesn't respond*", "a"⟩,
              ⟨0, 9, "*Ann seems confused and doesn't respond*", "b"⟩]) :=
  C2_ai_fallback "Ann: hello" ["a", "b"] [⟨9, "Ann", true, true, "claude"⟩]
    (fun _ => .error ()) ⟨9, "Ann", true, true, "claude"⟩
    (by decide) rfl rfl (by decide) rfl

/-! ## Sending a message: validation and persistence
(`routers/messages.py` lines 110-219, `websocket.py` lines 96-189) -/

/-- The member-row slice the send handlers read. -/
structure DMember where
  id : Nat
  user_id : Nat
  is_active : Bool
  proxy_tags : ProxyField

/-- A channel row (`id`, owning `user_id`). -/
structure DChannel where
  id : Nat
  user_id : Nat

/-- A `messages` row as the handlers create it.  The websocket path sets no
`user_id`. -/
structure DMessage where
  user_id : Option Nat
  member_id : Option Nat
  channel_id : Option Nat
  content : String

/-- The tables the handlers touch. -/
structure Db where
  members : List DMember
  channels : List DChannel
  messages : List DMessage

/-- The member slice `parse_proxy_tags` receives. -/
def toMember (m : DMember) : Member := ⟨m.id, m.proxy_tags⟩

/-- An HTTP error response of the REST handler: the two 404s, or the 500
produced by an uncaught exception in proxy-tag parsing. -/
inductive RestError where
  | memberNotFound
  | channelNotFound
  | typeError

/-- Outcome of one REST `send_message` call: the database afterwards, the
payload handed to the background `broadcast_to_all` task (if any), and the
error returned to the caller (if any). -/
structure RestResult where
  db : Db
  broadcast : Option DMessage
  error : Option RestError

/-- The REST `send_message` handler (`routers/messages.py` lines 110-219):
proxy-tag detection over the caller's active members, member-ownership
check, channel-ownership check, then persist and schedule the broadcast. -/
def rest_send_message (db : Db) (uid : Nat) (content : String)
    (member_id channel_id : Option Nat) : RestResult :=
  let user_members := db.members.filter fun m => m.user_id == uid && m.is_active
  match parse_proxy_tags content (user_members.map toMember) with
  | .error _ => ⟨db, none, some .typeError⟩
  | .ok (detected, stripped) =>
      let fmid := match detected with
        | some d => some d
        | none => member_id
      let memberOk := match fmid with
        | none => true
        | some mid => db.members.any fun m => m.id == mid && m.user_id == uid
      if !memberOk then ⟨db, none, some .memberNotFound⟩
      else
        let chanOk := match channel_id with
          | none => true
          | some cid => db.channels.any fun ch => ch.id == cid && ch.user_id == uid
        if !chanOk then ⟨db, none, some .channelNotFound⟩
        else
          let msg : DMessage := ⟨some uid, fmid, channel_id, stripped⟩
          ⟨{ db with messages := db.messages ++ [msg] }, some msg, none⟩

/-- How one websocket `send_message` event ended. -/
inductive WsOutcome where
  | missingFields
  | commandHandled (result : Option String)
  | memberNotFound
  | sent (msg : DMessage)

/-- Outcome of one websocket `send_message` event: the database afterwards,
the chat-message events emitted (session id, payload), and how the event
ended.  Command replies are system messages sent back separately, carried
in the outcome, never stored as chat rows. -/
structure WsResult where
  db : Db
  broadcasts : List (String × DMessage)
  outcome : WsOutcome

/-- The websocket `send_message` handler (`websocket.py` lines 96-189);
the AI phase that follows a successful send is `aiPhase`.  Note the
handler checks member ownership but never validates `channel_id`. -/
def ws_send_message (db : Db) (uid : Nat) (content : String)
    (member_id : Option Nat) (channel_id : Option Nat) (sessions : List String)
    (reg : List (String × Command))
    (behavior : Nat → List String → Except String String) : WsResult :=
  if content == "" || member_id.getD 0 == 0 then ⟨db, [], .missingFields⟩
  else if strStartsWith content "/" then
    ⟨db, [], .commandHandled (CommandRegistry.execute reg behavior content)⟩
  else
    match member_id with
    | none => ⟨db, [], .missingFields⟩
    | some mid =>
        if db.members.any fun m => m.id == mid && m.user_id == uid then
          let msg : DMessage := ⟨none, some mid, channel_id, content⟩
          ⟨{ db with messages := db.messages ++ [msg] },
            sessions.map fun sid => (sid, msg), .sent msg⟩
        else ⟨db, [], .memberNotFound⟩

/-- Claim C4 (amended): a validation failure is rejected before
persistence with nothing broadcast and the error reported only in the
reply to the originator — in the REST handler for both the member and
channel ownership checks (and the parse error), and in the websocket
handler for every non-sent outcome.  The websocket handler, however, does
not treat an unknown channel id as a validation failure at all (see the
counterexample). -/
theorem C4_validation_before_persistence :
    (∀ (db : Db) (uid : Nat) (content : String) (member_id channel_id : Option Nat),
        (rest_send_message db uid content member_id channel_id).error ≠ none →
        (rest_send_message db uid content member_id channel_id).db = db
          ∧ (rest_send_message db uid content member_id channel_id).broadcast = none)
    ∧ (∀ (db : Db) (uid : Nat) (content : String) (member_id channel_id : Option Nat)
        (sessions : List String) (reg : List (String × Command))
        (behavior : Nat → List String → Except String String),
        ((ws_send_message db uid content member_id channel_id sessions
              reg behavior).outcome = .missingFields
          ∨ (ws_send_message db uid content member_id channel_id sessions
              reg behavior).outcome = .memberNotFound
          ∨ ∃ r, (ws_send_message db uid content member_id channel_id sessions
              reg behavior).outcome = .commandHandled r) →
        (ws_send_message db uid content member_id channel_id sessions reg behavior).db = db
          ∧ (ws_send_message db uid content member_id channel_id sessions
              reg behavior).broadcasts = []) := by
  constructor
  · intro db uid content member_id channel_id herr
    simp only [rest_send_message] at herr ⊢
    cases hp : parse_proxy_tags content
        ((db.members.filter fun m => m.user_id == uid && m.is_active).map toMember) with
    | error e => simp [hp]
    | ok r =>
        obtain ⟨detected, stripped⟩ := r
        simp only [hp] at herr ⊢
        split
        · exact ⟨rfl, rfl⟩
        · rename_i h1
          split
          · exact ⟨rfl, rfl⟩
          · rename_i h2
            rw [if_neg h1, if_neg h2] at herr
            simp at herr
  · intro db uid content member_id channel_id sessions reg behavior hout
    unfold ws_send_message at hout ⊢
    split
    · exact ⟨rfl, rfl⟩
    · split
      · exact ⟨rfl, rfl⟩
      · split
        · exact ⟨rfl, rfl⟩
        · split
          · rcases hout with h | h | ⟨r, h⟩ <;> simp_all
          · exact ⟨rfl, rfl⟩

/-- Claim C4, counterexample: the websocket handler persists and
broadcasts a message whose `channel_id` does not exist (the channels table
is empty), instead of rejecting it before persistence. -/
theorem C4_counterexample :
    ws_send_message ⟨[⟨1, 1, true, .empty⟩], [], []⟩ 1 "hello" (some 1) (some 999)
        ["s1"] [] (fun _ _ => .ok "")
      = ⟨⟨[⟨1, 1, true, .empty⟩], [], [⟨none, some 1, some 999, "hello"⟩]⟩,
          [("s1", ⟨none, some 1, some 999, "hello"⟩)],
          .sent ⟨none, some 1, some 999, "hello"⟩⟩ := rfl

/-- Witness for `C4_validation_before_persistence`: a member id not owned
by the caller is rejected by the REST handler with the database unchanged
and no broadcast scheduled. -/
theorem C4_validation_before_persistence_witness :
    (rest_send_message ⟨[], [], []⟩ 1 "hi" (some 5) none).db = ⟨[], [], []⟩
      ∧ (rest_send_message ⟨[], [], []⟩ 1 "hi" (some 5) none).broadcast = none :=
  C4_validation_before_persistence.1 ⟨[], [], []⟩ 1 "hi" (some 5) none
    (by intro h; cases h)

/-! ## Per-channel ordering under concurrent handlers (`websocket.py`
lines 96-189)

The handler is an `async def` scheduled cooperatively: control changes
tasks only at an `await`.  Before any database work the handler awaits the
`sio_app.session(sid)` context read (line 100); the insert/commit section
(lines 144-167) is synchronous; the emit loop (lines 186-189) awaits.
There is no per-channel queue or mutex anywhere in the handler.  A step
list abstracts one handler run; a trace interleaves two runs. -/

/-- One observable step of a handler run. -/
inductive HStep where
  | yield
  | commitStep (mid : Nat) (chan : Option Nat)
  | emitStep (mid : Nat)
  deriving DecidableEq

/-- Whether a step is a suspension point (an `await`). -/
def isSusp : HStep → Bool
  | .yield => true
  | .commitStep _ _ => false
  | .emitStep _ => true

/-- The database commit of a handler run. -/
def isCommit : HStep → Bool
  | .commitStep _ _ => true
  | _ => false

/-- The broadcast of a handler run. -/
def isEmit : HStep → Bool
  | .emitStep _ => true
  | _ => false

/-- The step list of one websocket `send_message` run for a message by
member `mid` into channel `chan`: awaited session read, synchronous
persist, awaited emit.  The steps do not depend on the channel in any way
other than carrying it. -/
def handlerSteps (mid : Nat) (chan : Option Nat) : List HStep :=
  [.yield, .commitStep mid chan, .emitStep mid]

/-- The steps a trace attributes to one task. -/
def proj (b : Bool) (tr : List (Bool × HStep)) : List HStep :=
  (tr.filter fun e => e.1 == b).map fun e => e.2

/-- Cooperative validity: the scheduler may move to the other task only
right after the running task executed a suspension step. -/
def coopOk : List (Bool × HStep) → Bool
  | [] => true
  | [_] => true
  | (t1, s1) :: (t2, s2) :: rest =>
      (t1 == t2 || isSusp s1) && coopOk ((t2, s2) :: rest)

/-- A possible execution of two concurrent handler runs: the trace
projects to each task's step list and respects cooperative switching. -/
def ValidTrace (tr : List (Bool × HStep)) (ta tb : List HStep) : Prop :=
  proj true tr = ta ∧ proj false tr = tb ∧ coopOk tr = true

/-- Index of a task's first step in the trace — where the router begins
processing that message. -/
def beginIdx (b : Bool) (tr : List (Bool × HStep)) : Nat :=
  tr.findIdx fun e => e.1 == b

/-- Index of a task's commit in the trace. -/
def commitIdx (b : Bool) (tr : List (Bool × HStep)) : Nat :=
  tr.findIdx fun e => e.1 == b && isCommit e.2

/-- Index of a task's broadcast in the trace. -/
def emitIdx (b : Bool) (tr : List (Bool × HStep)) : Nat :=
  tr.findIdx fun e => e.1 == b && isEmit e.2

theorem findIdx_proj_lt (p q : HStep → Bool) :
    ∀ (tr : List (Bool × HStep)) (b : Bool),
    (proj b tr).findIdx p < (proj b tr).findIdx q →
    (proj b tr).any p = true →
    tr.findIdx (fun e => e.1 == b && p e.2) < tr.findIdx (fun e => e.1 == b && q e.2) := by
  intro tr
  induction tr with
  | nil =>
      intro b _ hany
      simp [proj] at hany
  | cons e rest ih =>
      intro b hlt hany
      obtain ⟨t, s⟩ := e
      rw [List.findIdx_cons, List.findIdx_cons]
      by_cases hb : (t == b) = true
      · have hproj : proj b ((t, s) :: rest) = s :: proj b rest := by
          simp [proj, hb]
        rw [hproj, List.findIdx_cons, List.findIdx_cons] at hlt
        rw [hproj, List.any_cons] at hany
        cases hp : p s <;> cases hq : q s <;>
          simp only [hp, hq, hb, cond_true, cond_false, Bool.and_true, Bool.and_false,
            Bool.true_and, Bool.false_or, Bool.true_or] at hlt hany ⊢
        · have := ih b (by omega) hany
          omega
        · omega
        · omega
        · omega
      · have hb' : (t == b) = false := by simpa using hb
        have hproj : proj b ((t, s) :: rest) = proj b rest := by
          simp [proj, hb']
        rw [hproj] at hlt hany
        simp only [hb', Bool.false_and, cond_false]
        have := ih b hlt hany
        omega

/-- Claim C9 (amended): the handlers provide per-message ordering only: in
every valid cooperative schedule of two concurrent runs, each message's
database commit precedes that same message's broadcast.  There is no
per-channel serialization of persistence+broadcast, and commit order need
not follow the order the handlers began processing, even within one
channel (see the counterexample). -/
theorem C9_ordering :
    ∀ (tr : List (Bool × HStep)) (m1 m2 : Nat) (c1 c2 : Option Nat),
    ValidTrace tr (handlerSteps m1 c1) (handlerSteps m2 c2) →
    commitIdx true tr < emitIdx true tr ∧ commitIdx false tr < emitIdx false tr := by
  intro tr m1 m2 c1 c2 hv
  obtain ⟨hta, htb, -⟩ := hv
  constructor
  · apply findIdx_proj_lt isCommit isEmit tr true
    · rw [hta]
      simp [handlerSteps, List.findIdx_cons, isCommit, isEmit]
    · rw [hta]
      simp [handlerSteps, isCommit]
  · apply findIdx_proj_lt isCommit isEmit tr false
    · rw [htb]
      simp [handlerSteps, List.findIdx_cons, isCommit, isEmit]
    · rw [htb]
      simp [handlerSteps, isCommit]

/-- A valid cooperative schedule in which task `true` begins first, yields
at its first await, and task `false` runs to completion before it resumes
— both messages targeting channel 1. -/
def overtakeTrace : List (Bool × HStep) :=
  [(true, .yield), (false, .yield), (false, .commitStep 2 (some 1)),
   (false, .emitStep 2), (true, .commitStep 1 (some 1)), (true, .emitStep 1)]

/-- Claim C9, counterexample to the ordering guarantee as stated: in the
schedule `overtakeTrace`, both messages target the same channel, the first
task begins processing first, yet the second task's message is committed
(and broadcast) first — nothing serializes persistence per channel. -/
theorem C9_counterexample :
    ValidTrace overtakeTrace (handlerSteps 1 (some 1)) (handlerSteps 2 (some 1))
    ∧ beginIdx true overtakeTrace < beginIdx false overtakeTrace
    ∧ commitIdx false overtakeTrace < commitIdx true overtakeTrace :=
  ⟨⟨by decide, by decide, by decide⟩, by decide, by decide⟩

/-- The serial schedule: task `true` runs to completion, then task
`false`. -/
def serialTrace : List (Bool × HStep) :=
  [(true, .yield), (true, .commitStep 1 (some 1)), (true, .emitStep 1),
   (false, .yield), (false, .commitStep 2 (some 1)), (false, .emitStep 2)]

/-- Witness for `C9_ordering` at the serial schedule. -/
theorem C9_ordering_witness :
    commitIdx true serialTrace < emitIdx true serialTrace
      ∧ commitIdx false serialTrace < emitIdx false serialTrace :=
  C9_ordering serialTrace 1 2 (some 1) (some 1) ⟨by decide, by decide, by decide⟩

end PluralChat
